import Mathlib

/-!
Verification of the company-hierarchy layout engine of the `mcp-tools`
repository (`src/mcp_tools/drawings/company_structure.py`,
`src/mcp_tools/drawings/svg_generator.py`,
`src/mcp_tools/drawings/constants.py`).

The Python code is shallowly embedded: Python dicts become insertion-ordered
association lists (`aupdate` models `d[k] = v`, `alookup` models `d.get(k)`),
the dynamically-typed parent references and percentage annotations become sum
types, recursion guarded by Python's recursion limit becomes fuel-indexed
recursion returning `Option` (`none` models a `RecursionError`), and the
`CompanyStructureGenerator` / `SVGGenerator` classes become the `CSG` / `SVGG`
namespaces.
-/

/-- A percentage annotation as it may appear in the input JSON: a number,
a string, or any other (unusable) value.  Python numbers are modelled as
rationals. -/
inductive PercVal where
  | num : ℚ → PercVal
  | str : String → PercVal
  | other : PercVal
deriving DecidableEq, Repr

/-- One element of an entity's `parents` list: either a bare id string, a
dict (with optional `id` and optional `percentage` fields), or any other
value (skipped by the code). -/
inductive ParentRef where
  | pstr : String → ParentRef
  | pobj : Option String → Option PercVal → ParentRef
  | pother : ParentRef
deriving DecidableEq, Repr

/-- An entity record of the input mapping: `name`, `type` and `parents`
fields, each optional in the JSON (`parents` absent is modelled as `[]`,
which is how the code treats it: `company_data.get('parents', [])`, and
`not company_data.get('parents')` is true for both). -/
structure Entity where
  name : Option String := none
  etype : Option String := none
  parents : List ParentRef := []
deriving DecidableEq, Repr

/-- The input mapping `companies_data : Dict[str, Any]`, an insertion-ordered
mapping from entity id to entity record. -/
abbrev Companies := List (String × Entity)

/-- `d.get(k)` on an insertion-ordered dict (first entry with the key). -/
def alookup {α : Type} : List (String × α) → String → Option α
  | [], _ => none
  | (k, v) :: rest, key => if k = key then some v else alookup rest key

/-- `d[k] = v` on an insertion-ordered dict: an existing key keeps its
position and gets the new value, a new key is appended at the end. -/
def aupdate {α : Type} : List (String × α) → String → α → List (String × α)
  | [], k, v => [(k, v)]
  | (k1, v1) :: rest, k, v =>
    if k1 = k then (k, v) :: rest else (k1, v1) :: aupdate rest k v

/-- Python `s.rstrip('%')`: drop every trailing `%` character. -/
def rstripPercent (s : String) : String :=
  String.mk ((s.data.reverse.dropWhile (fun c => c = '%')).reverse)

/-- The characters Python `str.strip()` removes (the ASCII whitespace set;
unicode whitespace is out of scope of the embedding). -/
def pyIsSpace (c : Char) : Bool :=
  c = ' ' || c = '\t' || c = '\n' || c = '\r' || c = '\x0b' || c = '\x0c'

/-- Python `s.strip()`: drop leading and trailing whitespace. -/
def pyStrip (s : String) : String :=
  String.mk
    (((s.data.dropWhile pyIsSpace).reverse.dropWhile pyIsSpace).reverse)

/-- Numeric value of a list of decimal digit characters. -/
def digitsToNat (cs : List Char) : Nat :=
  cs.foldl (fun a c => a * 10 + (c.toNat - 48)) 0

/-- Parse an unsigned decimal literal (`"60"`, `"60."`, `".5"`, `"60.0"`). -/
def parseDecimal (cs : List Char) : Option ℚ :=
  match cs.splitOn '.' with
  | [ip] =>
    if !ip.isEmpty && ip.all Char.isDigit then some (digitsToNat ip) else none
  | [ip, fp] =>
    if (!ip.isEmpty || !fp.isEmpty) && ip.all Char.isDigit && fp.all Char.isDigit
    then some (mkRat (digitsToNat (ip ++ fp)) (10 ^ fp.length))
    else none
  | _ => none

/-- Model of Python's builtin `float(str)` restricted to plain signed decimal
literals; exponents, `inf`, `nan` and digit underscores are treated as
unparseable.  Returns the exact rational value. -/
def pyFloatOfString (s : String) : Option ℚ :=
  match s.data with
  | [] => none
  | c :: rest =>
    if c = '-' then (parseDecimal rest).map (fun q => -q)
    else if c = '+' then parseDecimal rest
    else parseDecimal (c :: rest)

/-- State threaded through the recursive labeling walk: the shared output
level map `company_positions` and the per-call `visited` set. -/
structure LevelState where
  positions : List (String × Nat)
  visited : List String
deriving DecidableEq, Repr

namespace CSG

/-- Resolution of one parent reference to a parent id, as done inline in the
source (`isinstance(parent, str)` / `isinstance(parent, dict)` /
`else: continue`); a dict without an `id` yields Python `None`. -/
def resolveParentId : ParentRef → Option String
  | ParentRef.pstr s => some s
  | ParentRef.pobj oid _ => oid
  | ParentRef.pother => none

/-- Whether entity `e` declares `pid` among its parents (the inner
`for parent in parents: ... if parent_id == company_id: ...; break`). -/
def listsAsParent (e : Entity) (pid : String) : Bool :=
  e.parents.any (fun ref => resolveParentId ref = some pid)

/-- The children scan of `calculate_level`: all entity ids (in input order)
that list `pid` among their parents. -/
def childrenOf (cd : Companies) (pid : String) : List String :=
  (cd.filter (fun kv => listsAsParent kv.2 pid)).map Prod.fst

/-- `CompanyStructureGenerator._find_root_companies`: ids with an empty (or
absent) `parents`, in input order; if there are none and the mapping is
nonempty, the first id in input order. -/
def findRootCompanies (cd : Companies) : List String :=
  let roots := (cd.filter (fun kv => kv.2.parents.isEmpty)).map Prod.fst
  if roots.isEmpty then
    match cd with
    | [] => []
    | kv :: _ => [kv.1]
  else roots

/-- The `for child_id in children:` loop of `calculate_level`, threading the
state and accumulating `current_max`. -/
def foldChildren (step : String → LevelState → Option (Nat × LevelState)) :
    List String → LevelState → Nat → Option (Nat × LevelState)
  | [], st, currentMax => some (currentMax, st)
  | c :: cs, st, currentMax =>
    match step c st with
    | none => none
    | some (r, st2) => foldChildren step cs st2 (max currentMax r)

/-- `calculate_level(company_id, level, visited)` of
`CompanyStructureGenerator._calculate_hierarchy_levels`.  The fuel models
Python's recursion limit; `none` models a `RecursionError` (never reached
for the fuel used by the driver, see `calcRoots_isSome`). -/
def calcLevel (cd : Companies) : Nat → String → Nat → LevelState →
    Option (Nat × LevelState)
  | 0, _, _, _ => none
  | fuel + 1, cid, level, st =>
    if cid ∈ st.visited then some (level, st)
    else
      foldChildren (fun c st2 => calcLevel cd fuel c (level + 1) st2)
        (childrenOf cd cid)
        ⟨aupdate st.positions cid level, cid :: st.visited⟩ level

/-- The driver loop `for root in root_companies: max_level =
max(max_level, calculate_level(root))`: each root call starts with a fresh
`visited` set (the `visited=None` default argument) but the level map is
shared across the root calls. -/
def calcRoots (cd : Companies) (fuel : Nat) : List String → Nat →
    List (String × Nat) → Option (Nat × List (String × Nat))
  | [], maxLevel, positions => some (maxLevel, positions)
  | r :: rs, maxLevel, positions =>
    match calcLevel cd fuel r 0 ⟨positions, []⟩ with
    | none => none
    | some (res, st) => calcRoots cd fuel rs (max maxLevel res) st.positions

/-- `CompanyStructureGenerator._calculate_hierarchy_levels` applied to the
roots of `_find_root_companies`, returning the final `max_level` and the
filled `company_positions` map. -/
def calculateHierarchyLevels (cd : Companies) :
    Option (Nat × List (String × Nat)) :=
  calcRoots cd (cd.length + 1) (findRootCompanies cd) 0 []

/-- The final level map of a full level-assignment call. -/
def fullPositions (cd : Companies) : List (String × Nat) :=
  ((calculateHierarchyLevels cd).map Prod.snd).getD []

/-- The returned `max_level` of a full level-assignment call. -/
def maxLevelOf (cd : Companies) : Nat :=
  ((calculateHierarchyLevels cd).map Prod.fst).getD 0

/-- The level map produced by running `calculate_level` for a single root
on an empty level map (one root's traversal in isolation). -/
def isolatedPositions (cd : Companies) (r : String) : List (String × Nat) :=
  ((calcLevel cd (cd.length + 1) r 0 ⟨[], []⟩).map
    (fun p => p.2.positions)).getD []

/-- One step of `_group_companies_by_level`: append `cid` to the list stored
under `level`, creating the entry at the end if the level is new. -/
def addToGroup : List (Nat × List String) → Nat → String →
    List (Nat × List String)
  | [], level, cid => [(level, [cid])]
  | (l, ids) :: rest, level, cid =>
    if l = level then (l, ids ++ [cid]) :: rest
    else (l, ids) :: addToGroup rest level cid

/-- `CompanyStructureGenerator._group_companies_by_level`: re-index the level
map into level → ordered id list, in insertion order. -/
def groupCompaniesByLevel (positions : List (String × Nat)) :
    List (Nat × List String) :=
  positions.foldl (fun g kv => addToGroup g kv.2 kv.1) []

/-- `CompanyStructureGenerator._sanitize_percentage`: strings are stripped of
surrounding whitespace and trailing `%` characters and parsed as floats, an
empty remainder or a parse failure yields `None`, numbers are taken as-is,
anything else yields `None`; a parsed value is returned only when `>= 0`. -/
def sanitizePercentage : Option PercVal → Option ℚ
  | none => none
  | some (PercVal.str s) =>
    match (if pyStrip (rstripPercent (pyStrip s)) = "" then (none : Option ℚ)
           else pyFloatOfString (pyStrip (rstripPercent (pyStrip s)))) with
    | some parsed => if 0 ≤ parsed then some parsed else none
    | none => none
  | some (PercVal.num q) => if 0 ≤ q then some q else none
  | some PercVal.other => none

end CSG

/-- `constants.SVG_WIDTH`. -/
def SVG_WIDTH : Int := 900

/-- `constants.SVG_HEIGHT_BASE`. -/
def SVG_HEIGHT_BASE : Int := 200

/-- `constants.SVG_HEIGHT_PER_LEVEL`. -/
def SVG_HEIGHT_PER_LEVEL : Int := 120

/-- `constants.BOX_WIDTH`. -/
def BOX_WIDTH : Int := 180

/-- `constants.BOX_HEIGHT`. -/
def BOX_HEIGHT : Int := 70

/-- `constants.BOX_MARGIN`. -/
def BOX_MARGIN : Int := 20

/-- One entry of `constants.CONNECTION_STYLES`. -/
structure ConnectionStyle where
  stroke_color : String
  stroke_width : Nat
  stroke_dasharray : String
deriving DecidableEq, Repr

/-- `constants.CONNECTION_STYLES["default"]`. -/
def CONNECTION_STYLES_default : ConnectionStyle := ⟨"#999999", 2, "none"⟩

/-- `constants.CONNECTION_STYLES["majority_ownership"]`. -/
def CONNECTION_STYLES_majority_ownership : ConnectionStyle :=
  ⟨"#999999", 3, "none"⟩

/-- `constants.CONNECTION_STYLES["minority_ownership"]`. -/
def CONNECTION_STYLES_minority_ownership : ConnectionStyle :=
  ⟨"#999999", 2, "5,5"⟩

/-- `constants.CONNECTION_STYLES["joint_venture"]`. -/
def CONNECTION_STYLES_joint_venture : ConnectionStyle :=
  ⟨"#999999", 2, "10,5"⟩

/-- `constants.OWNERSHIP_THRESHOLDS["majority"]`. -/
def OWNERSHIP_THRESHOLDS_majority : ℚ := 50

/-- `constants.OWNERSHIP_THRESHOLDS["minority"]`. -/
def OWNERSHIP_THRESHOLDS_minority : ℚ := 25

/-- `constants.OWNERSHIP_THRESHOLDS["small"]`. -/
def OWNERSHIP_THRESHOLDS_small : ℚ := 10

namespace CSG

/-- `CompanyStructureGenerator._get_connection_style`. -/
def getConnectionStyle : Option ℚ → ConnectionStyle
  | none => CONNECTION_STYLES_default
  | some p =>
    if OWNERSHIP_THRESHOLDS_majority ≤ p then CONNECTION_STYLES_majority_ownership
    else if OWNERSHIP_THRESHOLDS_minority ≤ p then CONNECTION_STYLES_minority_ownership
    else CONNECTION_STYLES_default

end CSG

namespace SVGG

/-- Resolution of one parent reference to a parent id, as done inline in
`SVGGenerator._calculate_hierarchy_levels`. -/
def resolveParentId : ParentRef → Option String
  | ParentRef.pstr s => some s
  | ParentRef.pobj oid _ => oid
  | ParentRef.pother => none

/-- Whether entity `e` declares `pid` among its parents
(`SVGGenerator` copy). -/
def listsAsParent (e : Entity) (pid : String) : Bool :=
  e.parents.any (fun ref => resolveParentId ref = some pid)

/-- The children scan of `SVGGenerator._calculate_hierarchy_levels`. -/
def childrenOf (cd : Companies) (pid : String) : List String :=
  (cd.filter (fun kv => listsAsParent kv.2 pid)).map Prod.fst

/-- `SVGGenerator._find_root_companies`. -/
def findRootCompanies (cd : Companies) : List String :=
  let roots := (cd.filter (fun kv => kv.2.parents.isEmpty)).map Prod.fst
  if roots.isEmpty then
    match cd with
    | [] => []
    | kv :: _ => [kv.1]
  else roots

/-- The `for child_id in children:` loop of `SVGGenerator`'s
`calculate_level`. -/
def foldChildren (step : String → LevelState → Option (Nat × LevelState)) :
    List String → LevelState → Nat → Option (Nat × LevelState)
  | [], st, currentMax => some (currentMax, st)
  | c :: cs, st, currentMax =>
    match step c st with
    | none => none
    | some (r, st2) => foldChildren step cs st2 (max currentMax r)

/-- `calculate_level` of `SVGGenerator._calculate_hierarchy_levels`. -/
def calcLevel (cd : Companies) : Nat → String → Nat → LevelState →
    Option (Nat × LevelState)
  | 0, _, _, _ => none
  | fuel + 1, cid, level, st =>
    if cid ∈ st.visited then some (level, st)
    else
      foldChildren (fun c st2 => calcLevel cd fuel c (level + 1) st2)
        (childrenOf cd cid)
        ⟨aupdate st.positions cid level, cid :: st.visited⟩ level

/-- The per-root driver loop of `SVGGenerator._calculate_hierarchy_levels`. -/
def calcRoots (cd : Companies) (fuel : Nat) : List String → Nat →
    List (String × Nat) → Option (Nat × List (String × Nat))
  | [], maxLevel, positions => some (maxLevel, positions)
  | r :: rs, maxLevel, positions =>
    match calcLevel cd fuel r 0 ⟨positions, []⟩ with
    | none => none
    | some (res, st) => calcRoots cd fuel rs (max maxLevel res) st.positions

/-- `SVGGenerator._calculate_hierarchy_levels` applied to the roots of
`SVGGenerator._find_root_companies`. -/
def calculateHierarchyLevels (cd : Companies) :
    Option (Nat × List (String × Nat)) :=
  calcRoots cd (cd.length + 1) (findRootCompanies cd) 0 []

/-- The final level map of `SVGGenerator`'s level assignment. -/
def fullPositions (cd : Companies) : List (String × Nat) :=
  ((calculateHierarchyLevels cd).map Prod.snd).getD []

/-- One step of `SVGGenerator._group_companies_by_level`. -/
def addToGroup : List (Nat × List String) → Nat → String →
    List (Nat × List String)
  | [], level, cid => [(level, [cid])]
  | (l, ids) :: rest, level, cid =>
    if l = level then (l, ids ++ [cid]) :: rest
    else (l, ids) :: addToGroup rest level cid

/-- `SVGGenerator._group_companies_by_level`. -/
def groupCompaniesByLevel (positions : List (String × Nat)) :
    List (Nat × List String) :=
  positions.foldl (fun g kv => addToGroup g kv.2 kv.1) []

/-- `SVGGenerator._calculate_box_position`: the center coordinate of the
`index`-th box of a level (`//` is Python floor division, `Int.fdiv`). -/
def calculateBoxPosition (level : Nat) (index : Nat)
    (companiesInLevel : List String) : Int × Int :=
  let levelWidth : Int :=
    (companiesInLevel.length : Int) * (BOX_WIDTH + BOX_MARGIN) - BOX_MARGIN
  let startX : Int := Int.fdiv (SVG_WIDTH - levelWidth) 2
  (startX + (index : Int) * (BOX_WIDTH + BOX_MARGIN) + Int.fdiv BOX_WIDTH 2,
   80 + (level : Int) * SVG_HEIGHT_PER_LEVEL + Int.fdiv BOX_HEIGHT 2)

/-- `SVGGenerator._get_entity_radius`: half the box height, for every
entity type (all shapes are rectangles). -/
def getEntityRadius (_entityType : String) : Int := Int.fdiv BOX_HEIGHT 2

/-- A parent→child connector emitted by `SVGGenerator._generate_connections`,
with the raw percentage annotation carried to `_generate_single_connection`. -/
structure Connection where
  parentId : String
  childId : String
  percentage : Option PercVal
deriving DecidableEq, Repr

/-- The reference-resolution step at the top of the `for parent in parents:`
loop of `SVGGenerator._generate_connections`: a bare string is a parent id
with no percentage, a dict contributes its `id` and `percentage` fields, any
other value is skipped (`continue`).  A dict whose `id` is absent resolves
`parent_id` to Python `None`, which can never be a key of the position map,
so it is collapsed to `none` here as well. -/
def connectionRef : ParentRef → Option (String × Option PercVal)
  | ParentRef.pstr s => some (s, none)
  | ParentRef.pobj (some i) p => some (i, p)
  | ParentRef.pobj none _ => none
  | ParentRef.pother => none

/-- `SVGGenerator._generate_connections`: for every entity and every parent
reference, resolve the reference; emit a connector only when both the
resolved parent id and the child id are keys of `company_positions`. -/
def generateConnections (cd : Companies) (positions : List (String × Nat)) :
    List Connection :=
  cd.flatMap (fun kv =>
    kv.2.parents.filterMap (fun ref =>
      match connectionRef ref with
      | none => none
      | some (pid, p) =>
        if (alookup positions pid).isSome && (alookup positions kv.1).isSome
        then some ⟨pid, kv.1, p⟩ else none))

end SVGG

namespace CSG

/-- `max(level_companies.keys()) if level_companies else 0`. -/
def maxKey (g : List (Nat × List String)) : Nat :=
  (g.map Prod.fst).foldl max 0

/-- Index of the first occurrence of `cid` in `ids`
(Python `list.index`). -/
def listIndexOf : List String → String → Nat
  | [], _ => 0
  | x :: rest, cid => if x = cid then 0 else listIndexOf rest cid + 1

/-- `CompanyStructureGenerator._get_company_position`: scan the level groups
in insertion order; for the first level containing the id, return the box
center, with the y axis flipped so that level 0 is at the top of the Plotly
canvas (the y axis points upward there). -/
def getCompanyPosition (levelCompanies : List (Nat × List String))
    (cid : String) : Option (Int × Int) :=
  let maxLevel := maxKey levelCompanies
  go levelCompanies maxLevel cid
where
  go : List (Nat × List String) → Nat → String → Option (Int × Int)
  | [], _, _ => none
  | (level, ids) :: rest, maxLevel, cid =>
    if cid ∈ ids then
      let levelWidth : Int :=
        (ids.length : Int) * (BOX_WIDTH + BOX_MARGIN) - BOX_MARGIN
      let startX : Int := Int.fdiv (SVG_WIDTH - levelWidth) 2
      some (startX + (listIndexOf ids cid : Int) * (BOX_WIDTH + BOX_MARGIN) +
              Int.fdiv BOX_WIDTH 2,
            80 + ((maxLevel : Int) - (level : Int)) * SVG_HEIGHT_PER_LEVEL +
              Int.fdiv BOX_HEIGHT 2)
    else go rest maxLevel cid

end CSG

/-- One entry of `constants.COLOR_CATEGORIES[cat]` (and of the dynamically
built custom style map): the fields of the per-entity-type style dicts.
`stroke_width` is only present on `focus_company` entries
(`entity_style.get("stroke_width", 2)` reads it with default 2). -/
structure EntityStyle where
  shape : String
  fill_color : String
  stroke_color : String
  text_color : String
  icon : String
  stroke_width : Option Nat := none
deriving DecidableEq, Repr

/-- An entity-type → style mapping (one category of `COLOR_CATEGORIES`). -/
abbrev StylesMap := List (String × EntityStyle)

/-- The module-level `constants.COLOR_CATEGORIES` table (category →
entity-type → style). -/
abbrev ColorTable := List (String × StylesMap)

/-- A non-focus entry of the table: `shape "rectangle"`, no `stroke_width`. -/
def mkStyle (fill stroke text : String) : EntityStyle :=
  ⟨"rectangle", fill, stroke, text, "", none⟩

/-- A `focus_company` entry of the table: carries `stroke_width: 4`. -/
def mkFocusStyle (fill stroke text : String) : EntityStyle :=
  ⟨"rectangle", fill, stroke, text, "", some 4⟩

/-- `constants.COLOR_CATEGORIES` (all six categories, transcribed from
`constants.py`). -/
def COLOR_CATEGORIES : ColorTable :=
  [("vibrant",
    [("person", mkStyle "#FF6B6B" "#CC5555" "white"),
     ("investor", mkStyle "#4ECDC4" "#3DA89A" "white"),
     ("trust", mkStyle "#45B7D1" "#3699B5" "white"),
     ("foundation", mkStyle "#96CEB4" "#7AB894" "white"),
     ("company", mkStyle "#4A90E2" "#2E5C8A" "white"),
     ("focus_company", mkFocusStyle "#FFD93D" "#FF0000" "#333333")]),
   ("professional",
    [("person", mkStyle "#34495E" "#2C3E50" "white"),
     ("investor", mkStyle "#3498DB" "#2980B9" "white"),
     ("trust", mkStyle "#5D6D7E" "#4A5568" "white"),
     ("foundation", mkStyle "#85929E" "#6C7B7F" "white"),
     ("company", mkStyle "#2E86AB" "#1B4F72" "white"),
     ("focus_company", mkFocusStyle "#E67E22" "#FF0000" "white")]),
   ("pastel",
    [("person", mkStyle "#FFF9C4" "#FFF59D" "#333333"),
     ("investor", mkStyle "#BBDEFB" "#90CAF9" "#333333"),
     ("trust", mkStyle "#C8E6C9" "#A5D6A7" "#333333"),
     ("foundation", mkStyle "#F8BBD9" "#E1BEE7" "#333333"),
     ("company", mkStyle "#E1BEE7" "#CE93D8" "#333333"),
     ("focus_company", mkFocusStyle "#FFCCBC" "#FF0000" "#333333")]),
   ("monochrome",
    [("person", mkStyle "#2C3E50" "#1A252F" "white"),
     ("investor", mkStyle "#34495E" "#2C3E50" "white"),
     ("trust", mkStyle "#5D6D7E" "#4A5568" "white"),
     ("foundation", mkStyle "#85929E" "#6C7B7F" "white"),
     ("company", mkStyle "#95A5A6" "#7F8C8D" "white"),
     ("focus_company", mkFocusStyle "#E74C3C" "#FF0000" "white")]),
   ("minimal",
    [("person", mkStyle "none" "#000000" "#000000"),
     ("investor", mkStyle "none" "#000000" "#000000"),
     ("trust", mkStyle "none" "#000000" "#000000"),
     ("foundation", mkStyle "none" "#000000" "#000000"),
     ("company", mkStyle "none" "#000000" "#000000"),
     ("focus_company", mkFocusStyle "none" "#FF0000" "#000000")]),
   ("custom",
    [("person", mkStyle "#FF6B6B" "#CC5555" "#333333"),
     ("investor", mkStyle "#F8BBD9" "#E1BEE7" "#333333"),
     ("trust", mkStyle "#F8BBD9" "#E1BEE7" "#333333"),
     ("foundation", mkStyle "#96CEB4" "#7AB894" "#333333"),
     ("company", mkStyle "#4A90E2" "#2E5C8A" "#333333"),
     ("focus_company", mkFocusStyle "#FFD93D" "#FF0000" "#333333")])]

/-- The numeric value of one hex digit, or `none`. -/
def hexDigitVal (c : Char) : Option Nat :=
  if '0' ≤ c ∧ c ≤ '9' then some (c.toNat - 48)
  else if 'a' ≤ c ∧ c ≤ 'f' then some (c.toNat - 87)
  else if 'A' ≤ c ∧ c ≤ 'F' then some (c.toNat - 70)
  else none

/-- `int(s, 16)` on a short slice: all characters must be hex digits and the
slice nonempty. -/
def parseHexSlice (cs : List Char) : Option Nat :=
  if cs.isEmpty then none
  else cs.foldl (fun acc c =>
    match acc, hexDigitVal c with
    | some a, some d => some (a * 16 + d)
    | _, _ => none) (some 0)

/-- `int(x * 0.8)` for a channel value `x ≤ 255`: exactly `(4 * x) / 5`
(the double-precision rounding of `0.8` is slightly above `4/5`, which never
moves the truncation across an integer for `x ≤ 255`). -/
def darkenChannel (x : Nat) : Nat := (4 * x) / 5

/-- The two lowercase hex digits of a channel value (`f"{r:02x}"`). -/
def hexByte (x : Nat) : String :=
  let dig := fun d => Char.ofNat (if d < 10 then d + 48 else d + 87)
  String.mk [dig (x / 16 % 16), dig (x % 16)]

/-- `SVGGenerator._darken_color` / `CompanyStructureGenerator._darken_color`:
strip leading `#`, read the three channel slices `[0:2]`, `[2:4]`, `[4:6]`,
darken by the 0.8 factor and re-format; any failure returns the input
unchanged. -/
def darkenColor (hexColor : String) : String :=
  let cs := hexColor.data.dropWhile (fun c => c = '#')
  match parseHexSlice (cs.take 2), parseHexSlice ((cs.drop 2).take 2),
        parseHexSlice ((cs.drop 4).take 2) with
  | some r, some g, some b =>
    "#" ++ hexByte (darkenChannel r) ++ hexByte (darkenChannel g) ++
      hexByte (darkenChannel b)
  | _, _, _ => hexColor

/-- `custom_colors.get(key, default)`. -/
def cget (cc : List (String × String)) (key dflt : String) : String :=
  (alookup cc key).getD dflt

namespace SVGG

/-- The style map built dynamically by `SVGGenerator.generate_company_diagram`
when `color_category == "custom"` and `custom_colors` is truthy (note the
source quirk that the `trust` entry also reads `investor_color`). -/
def buildCustomStyles (cc : List (String × String)) : StylesMap :=
  [("person", ⟨"rectangle", cget cc "person_color" "#FF6B6B",
      darkenColor (cget cc "person_color" "#FF6B6B"),
      cget cc "custom_font_color" "#333333", "", none⟩),
   ("investor", ⟨"rectangle", cget cc "investor_color" "#F8BBD9",
      darkenColor (cget cc "investor_color" "#F8BBD9"),
      cget cc "custom_font_color" "#333333", "", none⟩),
   ("trust", ⟨"rectangle", cget cc "investor_color" "#F8BBD9",
      darkenColor (cget cc "investor_color" "#F8BBD9"),
      cget cc "custom_font_color" "#333333", "", none⟩),
   ("foundation", ⟨"rectangle", cget cc "foundation_color" "#96CEB4",
      darkenColor (cget cc "foundation_color" "#96CEB4"),
      cget cc "custom_font_color" "#333333", "", none⟩),
   ("company", ⟨"rectangle", cget cc "company_color" "#4A90E2",
      darkenColor (cget cc "company_color" "#4A90E2"),
      cget cc "custom_font_color" "#333333", "", none⟩),
   ("focus_company", ⟨"rectangle", cget cc "focus_company_color" "#FFD93D",
      cget cc "focus_company_border" "#FF0000", "#333333", "", some 4⟩)]

/-- In-place mutation of one entry of the aliased style map
(`entity_styles[key][field] = value`). -/
def modStyle (m : StylesMap) (key : String)
    (f : EntityStyle → EntityStyle) : StylesMap :=
  m.map (fun p => if p.1 = key then (p.1, f p.2) else p)

/-- The three `custom_colors` override writes of
`SVGGenerator.generate_company_diagram` (executed on the style map aliased
from `COLOR_CATEGORIES`): `focus_company_color` → focus fill,
`focus_company_border` → focus stroke, `border_color` → every non-focus
stroke. -/
def applyCustomOverrides (styles : StylesMap)
    (cc : List (String × String)) : StylesMap :=
  let s1 := match alookup cc "focus_company_color" with
    | some v => modStyle styles "focus_company"
        (fun st => { st with fill_color := v })
    | none => styles
  let s2 := match alookup cc "focus_company_border" with
    | some v => modStyle s1 "focus_company"
        (fun st => { st with stroke_color := v })
    | none => s1
  match alookup cc "border_color" with
  | some v => s2.map (fun p =>
      if p.1 = "focus_company" then p
      else (p.1, { p.2 with stroke_color := v }))
  | none => s2

/-- The style-preparation prologue of `SVGGenerator.generate_company_diagram`
(lines 24-87).  In the non-custom branch the source takes an alias
`entity_styles = COLOR_CATEGORIES.get(color_category,
COLOR_CATEGORIES["professional"])` into the module-level table and mutates
the aliased dicts in place; this is modelled by returning, next to the
prepared style map, the table as it is left after the call. -/
def prepareEntityStyles (table : ColorTable) (colorCategory : String)
    (customColors : Option (List (String × String))) :
    StylesMap × ColorTable :=
  let ccTruthy := match customColors with
    | none => false
    | some l => !l.isEmpty
  if colorCategory = "custom" && ccTruthy then
    (buildCustomStyles (customColors.getD []), table)
  else
    let effCat := if (alookup table colorCategory).isSome then colorCategory
      else "professional"
    let entityStyles := (alookup table effCat).getD []
    let entityStyles2 :=
      if ccTruthy && (alookup entityStyles "focus_company").isSome then
        applyCustomOverrides entityStyles (customColors.getD [])
      else entityStyles
    (entityStyles2, aupdate table effCat entityStyles2)

end SVGG

/-- Modelled from the spec: `DEFAULT_COLORS` is imported by
`company_structure.py` from `.constants` but is not defined in the `src/`
snapshot of `constants.py`.  The spec fixes only the error placeholder's
size and text, not its colors ("a fixed small SVG (e.g. 400x200) containing
the error message as centered text"), so the two color values used by
`_generate_error_svg` are modelled as fixed placeholder strings. -/
def DEFAULT_COLORS_error_background : String := "#f8f9fa"

/-- Modelled from the spec: see `DEFAULT_COLORS_error_background`. -/
def DEFAULT_COLORS_error_text : String := "#e74c3c"

namespace CSG

/-- The abstract Plotly figure built by
`CompanyStructureGenerator._create_plotly_figure`: the data the drawing
backend consumes.  The backend itself (`fig.to_image`) is out of scope and is
passed in as a function that may fail. -/
structure Scene where
  companies : Companies
  levelCompanies : List (Nat × List String)
  customColors : List (String × String)
  focusCompany : String
  maxLevel : Nat

/-- `CompanyStructureGenerator._generate_error_svg`: the fixed 400x200
placeholder with the error message as centered text. -/
def generateErrorSvg (msg : String) : String :=
  "<svg width=\x27400\x27 height=\x27200\x27 xmlns=\x27http://www.w3.org/2000/svg\x27>\n    <rect width=\"400\" height=\"200\" fill=\"" ++
    DEFAULT_COLORS_error_background ++
    "\"/>\n    <text x=\x27200\x27 y=\x27100\x27 text-anchor=\x27middle\x27 font-family=\x27Segoe UI, Arial\x27 font-size=\x2714\x27 fill=\x27" ++
    DEFAULT_COLORS_error_text ++
    "\x27>\n        Error generating diagram: " ++ msg ++ "\n    </text>\n</svg>"

/-- The body of the `try:` block of
`CompanyStructureGenerator.generate_company_diagram`: root discovery, level
assignment, level grouping, then the out-of-scope rendering backend.
Exceptions become `Except.error`: exhausting the recursion fuel models a
`RecursionError`, and the backend may fail arbitrarily. -/
def diagramBody (render : Scene → Except String String) (cd : Companies)
    (customColors : List (String × String)) (focusCompany : String) :
    Except String String :=
  match calculateHierarchyLevels cd with
  | none => Except.error "maximum recursion depth exceeded"
  | some (maxLevel, positions) =>
    render ⟨cd, groupCompaniesByLevel positions, customColors, focusCompany,
            maxLevel⟩

/-- `CompanyStructureGenerator.generate_company_diagram`: the whole pipeline
wrapped in `try: ... except Exception as e: return self._generate_error_svg(str(e))`. -/
def generateCompanyDiagram (render : Scene → Except String String)
    (cd : Companies) (customColors : List (String × String))
    (focusCompany : String) : String :=
  match diagramBody render cd customColors focusCompany with
  | Except.ok svg => svg
  | Except.error e => generateErrorSvg e

end CSG

/-- The key list of the input mapping (proof scaffolding). -/
def keysOf (cd : Companies) : List String := cd.map Prod.fst

/-- Number of keys not yet visited (proof scaffolding: the termination
measure of the recursive labeling walk). -/
def unvisited (keys visited : List String) : Nat :=
  (keys.filter (fun k => !decide (k ∈ visited))).length

/-- Proof scaffolding for the write-only level map: relative to the two base
maps `pos`, `posB`, the two result maps `q`, `qB` agree at every key either
because both runs wrote the same value there, or because both kept their
respective base. -/
def PosAgree (pos posB q qB : List (String × Nat)) : Prop :=
  ∀ k, (∃ v, alookup q k = some v ∧ alookup qB k = some v) ∨
    (alookup q k = alookup pos k ∧ alookup qB k = alookup posB k)

/-- Proof scaffolding: relates the outcomes of two labeling runs that differ
only in their base level maps. -/
def StepRel (pos posB : List (String × Nat)) :
    Option (Nat × LevelState) → Option (Nat × LevelState) → Prop
  | none, none => True
  | some (r, st), some (rB, stB) =>
    r = rB ∧ st.visited = stB.visited ∧
      PosAgree pos posB st.positions stB.positions
  | _, _ => False

/-- The two-element cycle of the spec's cycle-termination property: `A` lists
`B` as parent and `B` lists `A`. -/
def cdCycle : Companies :=
  [("A", { parents := [ParentRef.pstr "B"] }),
   ("B", { parents := [ParentRef.pstr "A"] })]

/-- Two roots whose traversals overlap: `D` is a child of root `A`, and `C`
is a child of both `D` and root `B`, so `C` is first discovered at depth 2
from `A` and then re-discovered (and overwritten) at depth 1 from `B`. -/
def cdTwoRoots : Companies :=
  [("A", {}), ("B", {}),
   ("D", { parents := [ParentRef.pstr "A"] }),
   ("C", { parents := [ParentRef.pstr "D", ParentRef.pstr "B"] })]

/-- Two roots whose overlap inverts a connector: `C` is reached at depth 3
through root `R1` (via `X` and `P`) and then overwritten to depth 1 by root
`R2`, so the emitted connector from `P` (level 2) to `C` (level 1) points
upward while the connector from `X` (level 1) to `P` (level 2) points
downward. -/
def cdInverted : Companies :=
  [("R1", {}), ("R2", {}),
   ("X", { parents := [ParentRef.pstr "R1"] }),
   ("P", { parents := [ParentRef.pstr "X"] }),
   ("C", { parents := [ParentRef.pstr "P", ParentRef.pstr "R2"] })]

/-- Left-biased choice on `Option` (proof scaffolding). -/
def oor {α : Type} : Option α → Option α → Option α
  | some v, _ => some v
  | none, b => b

theorem alookup_aupdate {α : Type} (m : List (String × α)) (k : String)
    (v : α) (key : String) :
    alookup (aupdate m k v) key = if key = k then some v else alookup m key := by
  induction m with
  | nil =>
    rcases eq_or_ne key k with h | h
    · subst h; simp [aupdate, alookup]
    · simp [aupdate, alookup, h, Ne.symm h]
  | cons hd tl ih =>
    obtain ⟨k1, v1⟩ := hd
    by_cases h1 : k1 = k
    · subst h1
      rcases eq_or_ne key k1 with hkey | hkey
      · subst hkey; simp [aupdate, alookup]
      · simp [aupdate, alookup, hkey, Ne.symm hkey]
    · by_cases h2 : k1 = key
      · have hk : ¬ key = k := fun h => h1 (h2.trans h)
        simp [aupdate, alookup, h1, h2, hk]
      · simp [aupdate, alookup, h1, h2, ih]

theorem unvisited_anti (keys : List String) {v1 v2 : List String}
    (h : v1 ⊆ v2) : unvisited keys v2 ≤ unvisited keys v1 := by
  induction keys with
  | nil => simp [unvisited]
  | cons k rest ih =>
    by_cases h1 : k ∈ v1
    · have h2 : k ∈ v2 := h h1
      simpa [unvisited, h1, h2] using ih
    · by_cases h2 : k ∈ v2 <;> simp [unvisited, h1, h2] at ih ⊢ <;> omega

theorem unvisited_cons (k : String) (rest visited : List String) :
    unvisited (k :: rest) visited =
      unvisited rest visited + (if k ∈ visited then 0 else 1) := by
  by_cases h : k ∈ visited <;> simp [unvisited, List.filter_cons, h]

theorem unvisited_cons_lt {keys visited : List String} {cid : String}
    (hmem : cid ∈ keys) (hnv : cid ∉ visited) :
    unvisited keys (cid :: visited) < unvisited keys visited := by
  induction keys with
  | nil => cases hmem
  | cons k rest ih =>
    have hstep1 := unvisited_cons k rest (cid :: visited)
    have hstep2 := unvisited_cons k rest visited
    rcases List.mem_cons.1 hmem with h | h
    · subst h
      have hsub : visited ⊆ cid :: visited :=
        fun x hx => List.mem_cons_of_mem _ hx
      have hanti := unvisited_anti rest hsub
      simp [hnv] at hstep1 hstep2
      omega
    · have hlt := ih h
      by_cases hk : k ∈ visited
      · have hk2 : k ∈ cid :: visited := List.mem_cons_of_mem _ hk
        simp [hk, hk2] at hstep1 hstep2
        omega
      · by_cases hk2 : k ∈ cid :: visited <;>
          simp [hk, hk2] at hstep1 hstep2 <;> omega

theorem foldChildren_visited_mono
    (step : String → LevelState → Option (Nat × LevelState))
    (hstep : ∀ c st r st2, step c st = some (r, st2) →
      st.visited ⊆ st2.visited) :
    ∀ (cs : List String) (st : LevelState) (cm r : Nat) (st2 : LevelState),
      CSG.foldChildren step cs st cm = some (r, st2) →
      st.visited ⊆ st2.visited := by
  intro cs
  induction cs with
  | nil =>
    intro st cm r st2 h
    simp [CSG.foldChildren] at h
    rw [h.2]
    exact fun _ hx => hx
  | cons c rest ih =>
    intro st cm r st2 h
    simp only [CSG.foldChildren] at h
    cases hc : step c st with
    | none => rw [hc] at h; exact absurd h (by simp)
    | some p =>
      obtain ⟨r1, st1⟩ := p
      rw [hc] at h
      exact (hstep c st r1 st1 hc).trans (ih st1 (max cm r1) r st2 h)

theorem calcLevel_visited_mono (cd : Companies) :
    ∀ (fuel : Nat) (cid : String) (lvl : Nat) (st : LevelState) (r : Nat)
      (st2 : LevelState), CSG.calcLevel cd fuel cid lvl st = some (r, st2) →
      st.visited ⊆ st2.visited := by
  intro fuel
  induction fuel with
  | zero => intro cid lvl st r st2 h; exact absurd h (by simp [CSG.calcLevel])
  | succ fuel ih =>
    intro cid lvl st r st2 h
    simp only [CSG.calcLevel] at h
    by_cases hv : cid ∈ st.visited
    · simp [hv] at h
      rw [h.2]
      exact fun _ hx => hx
    · simp only [hv, if_false, if_neg hv] at h
      have hmono := foldChildren_visited_mono _
        (fun c st3 r3 st4 hc => ih c (lvl + 1) st3 r3 st4 hc)
        (CSG.childrenOf cd cid)
        ⟨aupdate st.positions cid lvl, cid :: st.visited⟩ lvl r st2 h
      exact fun x hx => hmono (List.mem_cons_of_mem _ hx)

theorem childrenOf_mem_keys {cd : Companies} {pid c : String}
    (h : c ∈ CSG.childrenOf cd pid) : c ∈ keysOf cd := by
  simp only [CSG.childrenOf, keysOf, List.mem_map, List.mem_filter] at h ⊢
  obtain ⟨kv, ⟨hkv, _⟩, heq⟩ := h
  exact ⟨kv, hkv, heq⟩

theorem foldChildren_isSome (cd : Companies) (fuel lvl : Nat)
    (hsome : ∀ c st, c ∈ keysOf cd →
      unvisited (keysOf cd) st.visited + 1 ≤ fuel →
      (CSG.calcLevel cd fuel c lvl st).isSome) :
    ∀ (cs : List String) (st : LevelState) (cm : Nat),
      (∀ c ∈ cs, c ∈ keysOf cd) →
      unvisited (keysOf cd) st.visited + 1 ≤ fuel →
      (CSG.foldChildren (fun c st2 => CSG.calcLevel cd fuel c lvl st2)
        cs st cm).isSome := by
  intro cs
  induction cs with
  | nil => intro st cm _ _; simp [CSG.foldChildren]
  | cons c rest ih2 =>
    intro st cm hcs hle
    have h1 := hsome c st (hcs c (by simp)) hle
    simp only [CSG.foldChildren]
    cases hc : CSG.calcLevel cd fuel c lvl st with
    | none => rw [hc] at h1; simp at h1
    | some p =>
      obtain ⟨r1, st1⟩ := p
      have hmono := calcLevel_visited_mono cd fuel c lvl st r1 st1 hc
      have hanti := unvisited_anti (keysOf cd) hmono
      exact ih2 st1 (max cm r1)
        (fun x hx => hcs x (List.mem_cons_of_mem _ hx)) (by omega)

theorem calcLevel_isSome (cd : Companies) :
    ∀ (fuel : Nat) (cid : String) (lvl : Nat) (st : LevelState),
      (cid ∈ keysOf cd ∨ cid ∈ st.visited) →
      unvisited (keysOf cd) st.visited + 1 ≤ fuel →
      (CSG.calcLevel cd fuel cid lvl st).isSome := by
  intro fuel
  induction fuel with
  | zero => intro cid lvl st _ hle; omega
  | succ fuel ih =>
    intro cid lvl st hmem hle
    simp only [CSG.calcLevel]
    by_cases hv : cid ∈ st.visited
    · simp [hv]
    · rcases hmem with hkey | hv2
      · simp only [hv, if_neg hv]
        have hdec := unvisited_cons_lt hkey hv
        exact foldChildren_isSome cd fuel (lvl + 1)
          (fun c st3 hc hle3 => ih c (lvl + 1) st3 (Or.inl hc) hle3)
          (CSG.childrenOf cd cid)
          ⟨aupdate st.positions cid lvl, cid :: st.visited⟩ lvl
          (fun c hc => childrenOf_mem_keys hc)
          (by show unvisited (keysOf cd) (cid :: st.visited) + 1 ≤ fuel; omega)
      · exact absurd hv2 hv

theorem unvisited_nil_visited (keys : List String) :
    unvisited keys [] = keys.length := by
  induction keys with
  | nil => rfl
  | cons k rest ih =>
    rw [unvisited_cons]
    simp [ih]

theorem calcRoots_isSome (cd : Companies) :
    ∀ (roots : List String) (maxL : Nat) (pos : List (String × Nat)),
      (∀ r ∈ roots, r ∈ keysOf cd) →
      (CSG.calcRoots cd (cd.length + 1) roots maxL pos).isSome := by
  intro roots
  induction roots with
  | nil => intro maxL pos _; simp [CSG.calcRoots]
  | cons r rest ih =>
    intro maxL pos hr
    simp only [CSG.calcRoots]
    have hfuel : unvisited (keysOf cd) ([] : List String) + 1 ≤ cd.length + 1 := by
      have hlen : (keysOf cd).length = cd.length := List.length_map _ _
      have := unvisited_nil_visited (keysOf cd)
      omega
    have h1 := calcLevel_isSome cd (cd.length + 1) r 0 ⟨pos, []⟩
      (Or.inl (hr r (by simp))) hfuel
    cases hc : CSG.calcLevel cd (cd.length + 1) r 0 ⟨pos, []⟩ with
    | none => rw [hc] at h1; simp at h1
    | some p =>
      obtain ⟨res, st⟩ := p
      exact ih (max maxL res) st.positions
        (fun x hx => hr x (List.mem_cons_of_mem _ hx))

theorem findRootCompanies_mem_keys (cd : Companies) :
    ∀ r ∈ CSG.findRootCompanies cd, r ∈ keysOf cd := by
  intro r hr
  unfold CSG.findRootCompanies at hr
  by_cases hempty :
      ((cd.filter (fun kv => kv.2.parents.isEmpty)).map Prod.fst).isEmpty
  · simp only [hempty, if_true] at hr
    match cd, hr with
    | kv :: tl, hr =>
      simp only [List.mem_singleton] at hr
      subst hr
      simp [keysOf]
  · simp only [hempty, if_false, Bool.false_eq_true] at hr
    simp only [List.mem_map, List.mem_filter] at hr
    obtain ⟨kv, ⟨hkv, _⟩, heq⟩ := hr
    simp only [keysOf, List.mem_map]
    exact ⟨kv, hkv, heq⟩

theorem calculateHierarchyLevels_isSome (cd : Companies) :
    (CSG.calculateHierarchyLevels cd).isSome :=
  calcRoots_isSome cd _ 0 [] (findRootCompanies_mem_keys cd)

theorem oor_assoc {α : Type} (a b c : Option α) :
    oor (oor a b) c = oor a (oor b c) := by
  cases a <;> cases b <;> rfl

theorem oor_none_right {α : Type} (a : Option α) : oor a none = a := by
  cases a <;> rfl

theorem posAgree_refl (pos posB : List (String × Nat)) :
    PosAgree pos posB pos posB :=
  fun _ => Or.inr ⟨rfl, rfl⟩

theorem posAgree_aupdate {pos posB q qB : List (String × Nat)}
    (h : PosAgree pos posB q qB) (cid : String) (lvl : Nat) :
    PosAgree pos posB (aupdate q cid lvl) (aupdate qB cid lvl) := by
  intro k
  rcases eq_or_ne k cid with hk | hk
  · subst hk
    exact Or.inl ⟨lvl, by simp [alookup_aupdate], by simp [alookup_aupdate]⟩
  · have h1 : alookup (aupdate q cid lvl) k = alookup q k := by
      simp [alookup_aupdate, hk]
    have h2 : alookup (aupdate qB cid lvl) k = alookup qB k := by
      simp [alookup_aupdate, hk]
    rw [h1, h2]
    exact h k

theorem posAgree_compose {pos posB q qB z zB : List (String × Nat)}
    (h1 : PosAgree pos posB q qB) (h2 : PosAgree q qB z zB) :
    PosAgree pos posB z zB := by
  intro k
  rcases h2 k with hw | ⟨hz, hzB⟩
  · exact Or.inl hw
  · rcases h1 k with ⟨v, hv, hvB⟩ | ⟨hq, hqB⟩
    · exact Or.inl ⟨v, hz.trans hv, hzB.trans hvB⟩
    · exact Or.inr ⟨hz.trans hq, hzB.trans hqB⟩

theorem foldChildren_stepRel
    (step : String → LevelState → Option (Nat × LevelState))
    (hstep : ∀ c (s sB : LevelState), s.visited = sB.visited →
      StepRel s.positions sB.positions (step c s) (step c sB)) :
    ∀ (cs : List String) (s sB : LevelState) (cm : Nat)
      (pos posB : List (String × Nat)),
      s.visited = sB.visited →
      PosAgree pos posB s.positions sB.positions →
      StepRel pos posB (CSG.foldChildren step cs s cm)
        (CSG.foldChildren step cs sB cm) := by
  intro cs
  induction cs with
  | nil =>
    intro s sB cm pos posB hvis hpa
    simp only [CSG.foldChildren, StepRel]
    exact ⟨trivial, hvis, hpa⟩
  | cons c rest ih =>
    intro s sB cm pos posB hvis hpa
    have h := hstep c s sB hvis
    simp only [CSG.foldChildren]
    cases hc : step c s with
    | none =>
      cases hcB : step c sB with
      | none => simp [StepRel]
      | some pB => rw [hc, hcB] at h; simp [StepRel] at h
    | some p =>
      obtain ⟨r1, s1⟩ := p
      cases hcB : step c sB with
      | none => rw [hc, hcB] at h; simp [StepRel] at h
      | some pB =>
        obtain ⟨r1B, s1B⟩ := pB
        rw [hc, hcB] at h
        simp only [StepRel] at h
        obtain ⟨hr, hvis1, hpa1⟩ := h
        subst hr
        exact ih s1 s1B (max cm r1) pos posB hvis1
          (posAgree_compose hpa hpa1)

theorem calcLevel_stepRel (cd : Companies) :
    ∀ (fuel : Nat) (cid : String) (lvl : Nat) (s sB : LevelState),
      s.visited = sB.visited →
      StepRel s.positions sB.positions (CSG.calcLevel cd fuel cid lvl s)
        (CSG.calcLevel cd fuel cid lvl sB) := by
  intro fuel
  induction fuel with
  | zero => intro cid lvl s sB _; simp [CSG.calcLevel, StepRel]
  | succ fuel ih =>
    intro cid lvl s sB hvis
    simp only [CSG.calcLevel]
    by_cases hv : cid ∈ s.visited
    · have hvB : cid ∈ sB.visited := hvis ▸ hv
      simp only [hv, hvB, if_true, StepRel]
      exact ⟨trivial, hvis, posAgree_refl _ _⟩
    · have hvB : cid ∉ sB.visited := fun h => hv (hvis ▸ h)
      simp only [hv, hvB, if_false, if_neg hv, if_neg hvB]
      exact foldChildren_stepRel _
        (fun c s2 s2B hvis2 => ih c (lvl + 1) s2 s2B hvis2)
        (CSG.childrenOf cd cid)
        ⟨aupdate s.positions cid lvl, cid :: s.visited⟩
        ⟨aupdate sB.positions cid lvl, cid :: sB.visited⟩ lvl
        s.positions sB.positions (by simp [hvis])
        (posAgree_aupdate (posAgree_refl _ _) cid lvl)

theorem calcLevel_base_or (cd : Companies) (fuel : Nat) (cid : String)
    (lvl : Nat) (pos : List (String × Nat)) (vis : List String) :
    (CSG.calcLevel cd fuel cid lvl ⟨pos, vis⟩ = none ∧
      CSG.calcLevel cd fuel cid lvl ⟨[], vis⟩ = none) ∨
    (∃ r st stB,
      CSG.calcLevel cd fuel cid lvl ⟨pos, vis⟩ = some (r, st) ∧
      CSG.calcLevel cd fuel cid lvl ⟨[], vis⟩ = some (r, stB) ∧
      ∀ k, alookup st.positions k =
        oor (alookup stB.positions k) (alookup pos k)) := by
  have h := calcLevel_stepRel cd fuel cid lvl ⟨pos, vis⟩ ⟨[], vis⟩ rfl
  cases h1 : CSG.calcLevel cd fuel cid lvl ⟨pos, vis⟩ with
  | none =>
    cases h2 : CSG.calcLevel cd fuel cid lvl ⟨[], vis⟩ with
    | none => exact Or.inl ⟨rfl, rfl⟩
    | some p => rw [h1, h2] at h; simp [StepRel] at h
  | some p =>
    obtain ⟨r, st⟩ := p
    cases h2 : CSG.calcLevel cd fuel cid lvl ⟨[], vis⟩ with
    | none => rw [h1, h2] at h; simp [StepRel] at h
    | some pB =>
      obtain ⟨rB, stB⟩ := pB
      rw [h1, h2] at h
      simp only [StepRel] at h
      obtain ⟨hr, _, hpa⟩ := h
      subst hr
      refine Or.inr ⟨r, st, stB, rfl, rfl, fun k => ?_⟩
      rcases hpa k with ⟨v, hv1, hv2⟩ | ⟨hq, hqB⟩
      · rw [hv1, hv2]; rfl
      · rw [hq, hqB]
        simp [alookup, oor]

theorem findSome?_singleton {α β : Type} (a : α) (f : α → Option β) :
    ([a].findSome? f) = f a := by
  cases h : f a <;> simp [List.findSome?, h]

theorem findSome?_append {α β : Type} (l1 l2 : List α) (f : α → Option β) :
    ((l1 ++ l2).findSome? f) = oor (l1.findSome? f) (l2.findSome? f) := by
  induction l1 with
  | nil => simp [List.findSome?, oor]
  | cons a l ih =>
    simp only [List.cons_append, List.findSome?]
    cases f a with
    | none => simpa [oor] using ih
    | some b => simp [oor]

theorem calcRoots_lookup (cd : Companies) :
    ∀ (roots : List String) (maxL : Nat) (pos : List (String × Nat))
      (m : Nat) (q : List (String × Nat)),
      CSG.calcRoots cd (cd.length + 1) roots maxL pos = some (m, q) →
      ∀ k, alookup q k =
        oor (roots.reverse.findSome?
          (fun r => alookup (CSG.isolatedPositions cd r) k)) (alookup pos k) := by
  intro roots
  induction roots with
  | nil =>
    intro maxL pos m q h k
    simp only [CSG.calcRoots, Option.some_inj, Prod.mk.injEq] at h
    rw [← h.2]
    simp [List.findSome?, oor]
  | cons r rest ih =>
    intro maxL pos m q h k
    simp only [CSG.calcRoots] at h
    rcases calcLevel_base_or cd (cd.length + 1) r 0 pos []
      with ⟨h1, _⟩ | ⟨res, st, stB, h1, h2, hor⟩
    · rw [h1] at h; exact absurd h (by simp)
    · rw [h1] at h
      have hiso : CSG.isolatedPositions cd r = stB.positions := by
        simp [CSG.isolatedPositions, h2]
      have hrec := ih (max maxL res) st.positions m q h k
      rw [hrec, hor k]
      simp only [List.reverse_cons, findSome?_append, findSome?_singleton,
        oor_assoc, hiso]

theorem fullPositions_lookup (cd : Companies) (k : String) :
    alookup (CSG.fullPositions cd) k =
      (CSG.findRootCompanies cd).reverse.findSome?
        (fun r => alookup (CSG.isolatedPositions cd r) k) := by
  have hs := calculateHierarchyLevels_isSome cd
  cases h : CSG.calculateHierarchyLevels cd with
  | none => rw [h] at hs; simp at hs
  | some p =>
    obtain ⟨m, q⟩ := p
    have hq : CSG.fullPositions cd = q := by simp [CSG.fullPositions, h]
    unfold CSG.calculateHierarchyLevels at h
    have hl := calcRoots_lookup cd (CSG.findRootCompanies cd) 0 [] m q h k
    rw [hq, hl]
    simp [alookup, oor_none_right]

theorem nodup_keys_eq {cd : Companies} (hn : (keysOf cd).Nodup)
    {a b : String × Entity} (ha : a ∈ cd) (hb : b ∈ cd) (hab : a.1 = b.1) :
    a = b := by
  induction cd with
  | nil => cases ha
  | cons hd tl ih =>
    have hn2 : (keysOf tl).Nodup := (List.nodup_cons.1 hn).2
    have hhd : hd.1 ∉ keysOf tl := (List.nodup_cons.1 hn).1
    rcases List.mem_cons.1 ha with ha1 | ha1 <;>
      rcases List.mem_cons.1 hb with hb1 | hb1
    · rw [ha1, hb1]
    · exfalso
      apply hhd
      have hkeq : hd.1 = b.1 := by rw [← ha1]; exact hab
      rw [hkeq]
      exact List.mem_map.2 ⟨b, hb1, rfl⟩
    · exfalso
      apply hhd
      have hkeq : hd.1 = a.1 := by rw [← hb1]; exact hab.symm
      rw [hkeq]
      exact List.mem_map.2 ⟨a, ha1, rfl⟩
    · exact ih hn2 ha1 hb1

theorem not_child_of_empty_parents {cd : Companies} (hn : (keysOf cd).Nodup)
    {cid : String} {ent : Entity} (hmem : (cid, ent) ∈ cd)
    (hpar : ent.parents = []) : ∀ x, cid ∉ CSG.childrenOf cd x := by
  intro x hc
  simp only [CSG.childrenOf, List.mem_map, List.mem_filter] at hc
  obtain ⟨kv, ⟨hkv, hlist⟩, heq⟩ := hc
  have : kv = (cid, ent) := nodup_keys_eq hn hkv hmem heq
  rw [this] at hlist
  simp [CSG.listsAsParent, hpar] at hlist

theorem foldChildren_rid_eff (rid : String)
    (step : String → LevelState → Option (Nat × LevelState))
    (hstep : ∀ c st r st2, c ≠ rid → step c st = some (r, st2) →
      (alookup st2.positions rid = alookup st.positions rid ∨
        alookup st2.positions rid = some 0)) :
    ∀ (cs : List String), (∀ c ∈ cs, c ≠ rid) →
      ∀ (st : LevelState) (cm r : Nat) (st2 : LevelState),
        CSG.foldChildren step cs st cm = some (r, st2) →
        (alookup st2.positions rid = alookup st.positions rid ∨
          alookup st2.positions rid = some 0) := by
  intro cs
  induction cs with
  | nil =>
    intro _ st cm r st2 h
    simp [CSG.foldChildren] at h
    rw [h.2]
    exact Or.inl rfl
  | cons c rest ih =>
    intro hcs st cm r st2 h
    simp only [CSG.foldChildren] at h
    cases hc : step c st with
    | none => rw [hc] at h; exact absurd h (by simp)
    | some p =>
      obtain ⟨r1, st1⟩ := p
      rw [hc] at h
      have h1 := hstep c st r1 st1 (hcs c (by simp)) hc
      have h2 := ih (fun x hx => hcs x (List.mem_cons_of_mem _ hx))
        st1 (max cm r1) r st2 h
      rcases h2 with h2 | h2
      · rcases h1 with h1 | h1
        · exact Or.inl (h2.trans h1)
        · exact Or.inr (h2.trans h1)
      · exact Or.inr h2

theorem calcLevel_rid_eff (cd : Companies) (rid : String)
    (hnc : ∀ x, rid ∉ CSG.childrenOf cd x) :
    ∀ (fuel : Nat) (cid : String) (lvl : Nat) (st : LevelState) (r : Nat)
      (st2 : LevelState), CSG.calcLevel cd fuel cid lvl st = some (r, st2) →
      (cid = rid → lvl = 0) →
      (alookup st2.positions rid = alookup st.positions rid ∨
        alookup st2.positions rid = some 0) := by
  intro fuel
  induction fuel with
  | zero =>
    intro cid lvl st r st2 h _
    exact absurd h (by simp [CSG.calcLevel])
  | succ fuel ih =>
    intro cid lvl st r st2 h hguard
    simp only [CSG.calcLevel] at h
    by_cases hv : cid ∈ st.visited
    · simp [hv] at h
      rw [h.2]
      exact Or.inl rfl
    · rw [if_neg hv] at h
      have hch : ∀ c ∈ CSG.childrenOf cd cid, c ≠ rid :=
        fun c hc hcr => hnc cid (hcr ▸ hc)
      have hfold := foldChildren_rid_eff rid _
        (fun c st3 r3 st4 hcr h3 =>
          ih c (lvl + 1) st3 r3 st4 h3 (fun he => absurd he hcr))
        (CSG.childrenOf cd cid) hch
        ⟨aupdate st.positions cid lvl, cid :: st.visited⟩ lvl r st2 h
      by_cases hcid : cid = rid
      · subst hcid
        have hl : lvl = 0 := hguard rfl
        subst hl
        have hstart : alookup (aupdate st.positions cid 0) cid = some 0 := by
          simp [alookup_aupdate]
        rcases hfold with h2 | h2
        · exact Or.inr (by rw [h2]; exact hstart)
        · exact Or.inr h2
      · have hne : ¬ rid = cid := fun hh => hcid hh.symm
        have hstart : alookup (aupdate st.positions cid lvl) rid =
            alookup st.positions rid := by
          simp [alookup_aupdate, hne]
        rcases hfold with h2 | h2
        · exact Or.inl (by rw [h2]; exact hstart)
        · exact Or.inr h2

theorem calcLevel_writes_start (cd : Companies) (rid : String) (fuel : Nat)
    (st : LevelState) (r : Nat) (st2 : LevelState)
    (h : CSG.calcLevel cd (fuel + 1) rid 0 st = some (r, st2))
    (hnv : rid ∉ st.visited) (hnc : ∀ x, rid ∉ CSG.childrenOf cd x) :
    alookup st2.positions rid = some 0 := by
  simp only [CSG.calcLevel, hnv, if_neg hnv] at h
  have hch : ∀ c ∈ CSG.childrenOf cd rid, c ≠ rid :=
    fun c hc hcr => hnc rid (hcr ▸ hc)
  have hfold := foldChildren_rid_eff rid _
    (fun c st3 r3 st4 hcr h3 =>
      calcLevel_rid_eff cd rid hnc fuel c 1 st3 r3 st4 h3
        (fun he => absurd he hcr))
    (CSG.childrenOf cd rid) hch
    ⟨aupdate st.positions rid 0, rid :: st.visited⟩ 0 r st2 h
  have hstart : alookup (aupdate st.positions rid 0) rid = some 0 := by
    simp [alookup_aupdate]
  rcases hfold with h2 | h2
  · rw [h2]; exact hstart
  · exact h2

theorem findSome?_all_zp {α : Type} (l : List α) (f : α → Option Nat)
    (hall : ∀ a ∈ l, f a = none ∨ f a = some 0)
    (hex : ∃ a ∈ l, f a = some 0) : l.findSome? f = some 0 := by
  induction l with
  | nil => obtain ⟨a, ha, _⟩ := hex; cases ha
  | cons a rest ih =>
    cases hfa : f a with
    | some v =>
      have : f a = none ∨ f a = some 0 := hall a (by simp)
      rw [hfa] at this
      rcases this with h | h
      · cases h
      · simp only [List.findSome?, hfa]
        exact h
    | none =>
      simp only [List.findSome?, hfa]
      apply ih (fun x hx => hall x (List.mem_cons_of_mem _ hx))
      obtain ⟨x, hx, hfx⟩ := hex
      rcases List.mem_cons.1 hx with hx1 | hx1
      · rw [hx1] at hfx; rw [hfx] at hfa; cases hfa
      · exact ⟨x, hx1, hfx⟩

theorem mem_findRootCompanies {cd : Companies} {cid : String} {ent : Entity}
    (hmem : (cid, ent) ∈ cd) (hpar : ent.parents = []) :
    cid ∈ CSG.findRootCompanies cd := by
  unfold CSG.findRootCompanies
  have hcmem : cid ∈ (cd.filter (fun kv => kv.2.parents.isEmpty)).map Prod.fst :=
    List.mem_map.2 ⟨(cid, ent), List.mem_filter.2 ⟨hmem, by simp [hpar]⟩, rfl⟩
  have hne : ¬ ((cd.filter (fun kv => kv.2.parents.isEmpty)).map Prod.fst).isEmpty := by
    intro habs
    rw [List.isEmpty_iff] at habs
    rw [habs] at hcmem
    cases hcmem
  simp only [hne, if_neg hne]
  exact hcmem

theorem isolated_lookup_zp (cd : Companies) (rid : String)
    (hnc : ∀ x, rid ∉ CSG.childrenOf cd x) (r : String) :
    alookup (CSG.isolatedPositions cd r) rid = none ∨
      alookup (CSG.isolatedPositions cd r) rid = some 0 := by
  cases h : CSG.calcLevel cd (cd.length + 1) r 0 ⟨[], []⟩ with
  | none => simp [CSG.isolatedPositions, h, alookup]
  | some p =>
    obtain ⟨res, st⟩ := p
    have := calcLevel_rid_eff cd rid hnc (cd.length + 1) r 0 ⟨[], []⟩ res st h
      (fun _ => rfl)
    simp only [CSG.isolatedPositions, h, Option.map_some, Option.getD_some]
    simpa [alookup] using this

theorem isolated_self_zero (cd : Companies) {cid : String} {ent : Entity}
    (hmem : (cid, ent) ∈ cd)
    (hnc : ∀ x, cid ∉ CSG.childrenOf cd x) :
    alookup (CSG.isolatedPositions cd cid) cid = some 0 := by
  have hkey : cid ∈ keysOf cd := List.mem_map.2 ⟨(cid, ent), hmem, rfl⟩
  have hfuel : unvisited (keysOf cd) ([] : List String) + 1 ≤ cd.length + 1 := by
    have hlen : (keysOf cd).length = cd.length := List.length_map _ _
    have := unvisited_nil_visited (keysOf cd)
    omega
  have hs := calcLevel_isSome cd (cd.length + 1) cid 0 ⟨[], []⟩
    (Or.inl hkey) hfuel
  cases h : CSG.calcLevel cd (cd.length + 1) cid 0 ⟨[], []⟩ with
  | none => rw [h] at hs; simp at hs
  | some p =>
    obtain ⟨res, st⟩ := p
    have := calcLevel_writes_start cd cid cd.length ⟨[], []⟩ res st h
      (by simp) hnc
    simp [CSG.isolatedPositions, h, this]

theorem childrenOf_eq (cd : Companies) (pid : String) :
    CSG.childrenOf cd pid = SVGG.childrenOf cd pid := rfl

theorem findRootCompanies_eq (cd : Companies) :
    CSG.findRootCompanies cd = SVGG.findRootCompanies cd := rfl

theorem foldChildren_congr
    (step1 step2 : String → LevelState → Option (Nat × LevelState))
    (hstep : ∀ c st, step1 c st = step2 c st) :
    ∀ (cs : List String) (st : LevelState) (cm : Nat),
      CSG.foldChildren step1 cs st cm = SVGG.foldChildren step2 cs st cm := by
  intro cs
  induction cs with
  | nil => intro st cm; rfl
  | cons c rest ih =>
    intro st cm
    simp only [CSG.foldChildren, SVGG.foldChildren, hstep c st]
    cases step2 c st with
    | none => rfl
    | some p => exact ih p.2 (max cm p.1)

theorem calcLevel_eq (cd : Companies) :
    ∀ (fuel : Nat) (cid : String) (lvl : Nat) (st : LevelState),
      CSG.calcLevel cd fuel cid lvl st = SVGG.calcLevel cd fuel cid lvl st := by
  intro fuel
  induction fuel with
  | zero => intro cid lvl st; rfl
  | succ fuel ih =>
    intro cid lvl st
    simp only [CSG.calcLevel, SVGG.calcLevel]
    by_cases hv : cid ∈ st.visited
    · simp [hv]
    · simp only [hv, if_neg hv]
      exact foldChildren_congr _ _ (fun c st2 => ih c (lvl + 1) st2) _ _ _

theorem calcRoots_eq (cd : Companies) (fuel : Nat) :
    ∀ (roots : List String) (maxL : Nat) (pos : List (String × Nat)),
      CSG.calcRoots cd fuel roots maxL pos =
        SVGG.calcRoots cd fuel roots maxL pos := by
  intro roots
  induction roots with
  | nil => intro maxL pos; rfl
  | cons r rest ih =>
    intro maxL pos
    simp only [CSG.calcRoots, SVGG.calcRoots, calcLevel_eq]
    cases SVGG.calcLevel cd fuel r 0 ⟨pos, []⟩ with
    | none => rfl
    | some p => exact ih (max maxL p.1) p.2.positions

theorem calculateHierarchyLevels_eq (cd : Companies) :
    CSG.calculateHierarchyLevels cd = SVGG.calculateHierarchyLevels cd := by
  unfold CSG.calculateHierarchyLevels SVGG.calculateHierarchyLevels
  rw [findRootCompanies_eq, calcRoots_eq]

theorem addToGroup_eq :
    ∀ (g : List (Nat × List String)) (lvl : Nat) (cid : String),
      CSG.addToGroup g lvl cid = SVGG.addToGroup g lvl cid := by
  intro g
  induction g with
  | nil => intro lvl cid; rfl
  | cons hd rest ih =>
    intro lvl cid
    obtain ⟨l, ids⟩ := hd
    simp only [CSG.addToGroup, SVGG.addToGroup]
    by_cases h : l = lvl
    · simp [h]
    · simp [h, ih]

theorem groupCompaniesByLevel_eq (positions : List (String × Nat)) :
    CSG.groupCompaniesByLevel positions =
      SVGG.groupCompaniesByLevel positions := by
  unfold CSG.groupCompaniesByLevel SVGG.groupCompaniesByLevel
  simp only [addToGroup_eq]

theorem mem_generateConnections (cd : Companies)
    (positions : List (String × Nat)) (conn : SVGG.Connection) :
    conn ∈ SVGG.generateConnections cd positions ↔
      ∃ ent, (conn.childId, ent) ∈ cd ∧
        (∃ ref ∈ ent.parents,
          SVGG.connectionRef ref = some (conn.parentId, conn.percentage)) ∧
        (alookup positions conn.parentId).isSome = true ∧
        (alookup positions conn.childId).isSome = true := by
  obtain ⟨cp, cc, cper⟩ := conn
  simp only [SVGG.generateConnections, List.mem_flatMap, List.mem_filterMap]
  constructor
  · rintro ⟨kv, hkv, ref, href, hmatch⟩
    cases hcr : SVGG.connectionRef ref with
    | none => rw [hcr] at hmatch; cases hmatch
    | some pr =>
      obtain ⟨pid, p⟩ := pr
      rw [hcr] at hmatch
      simp only at hmatch
      by_cases hcond : ((alookup positions pid).isSome &&
          (alookup positions kv.1).isSome) = true
      · rw [if_pos hcond] at hmatch
        have heq := Option.some.inj hmatch
        have hp : pid = cp := congrArg SVGG.Connection.parentId heq
        have hc : kv.1 = cc := congrArg SVGG.Connection.childId heq
        have hper : p = cper := congrArg SVGG.Connection.percentage heq
        subst hp; subst hc; subst hper
        refine ⟨kv.2, ?_, ⟨ref, href, hcr⟩, ?_, ?_⟩
        · simpa using hkv
        · exact (Bool.and_eq_true _ _ ▸ hcond).1
        · exact (Bool.and_eq_true _ _ ▸ hcond).2
      · rw [if_neg hcond] at hmatch; cases hmatch
  · rintro ⟨ent, hent, ⟨ref, href, hcr⟩, h1, h2⟩
    refine ⟨(cc, ent), hent, ref, href, ?_⟩
    rw [hcr]
    simp only
    have hcond : ((alookup positions cp).isSome &&
        (alookup positions cc).isSome) = true := by
      simp [h1, h2]
    rw [if_pos hcond]

/-- C1, counterexample: on `cdTwoRoots` the roots are `A` then `B`; the
traversal of `A` alone first discovers `C` at depth 2 and `B`'s traversal
alone first discovers it at depth 1, so the maximum of the first-discovery
depths over all declared roots is 2 — but the full call (which runs `B`'s
traversal after `A`'s with a fresh visited set, over the shared level map)
leaves `C` at level 1, and in particular writes `C` more than once. -/
theorem C1_counterexample :
    CSG.findRootCompanies cdTwoRoots = ["A", "B"] ∧
    alookup (CSG.isolatedPositions cdTwoRoots "A") "C" = some 2 ∧
    alookup (CSG.isolatedPositions cdTwoRoots "B") "C" = some 1 ∧
    alookup (CSG.fullPositions cdTwoRoots) "C" = some 1 ∧
    ¬ alookup (CSG.fullPositions cdTwoRoots) "C" = some (max 2 1) := by
  refine ⟨rfl, rfl, rfl, rfl, ?_⟩
  decide

/-- C1, amended: the visited set is created afresh for every root call
(`visited=None` default), so an id reachable from several roots is written
once per reaching root, later roots overwriting earlier ones; consequently
an entity's final level is its first-discovery depth in the traversal of the
last root (in root order) whose traversal reaches it: the final level map
lookup equals the first hit over the reversed root list of the per-root
isolated traversals. -/
theorem C1_amended_last_root_wins (cd : Companies) (k : String) :
    alookup (CSG.fullPositions cd) k =
      (CSG.findRootCompanies cd).reverse.findSome?
        (fun r => alookup (CSG.isolatedPositions cd r) k) :=
  fullPositions_lookup cd k

/-- C2, counterexample: on `cdInverted` both the connector `X → P` and the
connector `P → C` are emitted, but `X` (level 1) is rendered above `P`
(level 2) while `P` (level 2) is rendered below its child `C` (level 1), so
no single side convention places every parent on one side of its child; and
`C`, reached via `P` during `R1`'s traversal, ends at level 1 ≠ level(P)+1. -/
theorem C2_counterexample :
    (⟨"X", "P", none⟩ : SVGG.Connection) ∈
      SVGG.generateConnections cdInverted (SVGG.fullPositions cdInverted) ∧
    (⟨"P", "C", none⟩ : SVGG.Connection) ∈
      SVGG.generateConnections cdInverted (SVGG.fullPositions cdInverted) ∧
    alookup (SVGG.fullPositions cdInverted) "X" = some 1 ∧
    alookup (SVGG.fullPositions cdInverted) "P" = some 2 ∧
    alookup (SVGG.fullPositions cdInverted) "C" = some 1 ∧
    SVGG.groupCompaniesByLevel (SVGG.fullPositions cdInverted) =
      [(0, ["R1", "R2"]), (1, ["X", "C"]), (2, ["P"])] ∧
    (SVGG.calculateBoxPosition 1 0 ["X", "C"]).2 <
      (SVGG.calculateBoxPosition 2 0 ["P"]).2 ∧
    ¬ (SVGG.calculateBoxPosition 2 0 ["P"]).2 <
      (SVGG.calculateBoxPosition 1 1 ["X", "C"]).2 ∧
    ¬ (1 : Nat) = 2 + 1 := by
  refine ⟨?_, ?_, rfl, rfl, rfl, rfl, ?_, ?_, ?_⟩ <;> decide

/-- C2, amended: the y coordinate of `SVGGenerator._calculate_box_position`
is one fixed affine strictly-increasing function of the level alone
(`y = 80 + level*120 + 35`, root tier at the top), so for every emitted
connector the child's y minus the parent's y is `(level(child) −
level(parent)) * 120`, and the parent is rendered strictly above the child
exactly when its final level is strictly smaller — which several-root
overwriting can violate (see the counterexample). -/
theorem C2_amended_y_affine_in_level (cd : Companies) (conn : SVGG.Connection)
    (_hconn : conn ∈ SVGG.generateConnections cd (SVGG.fullPositions cd))
    (lp lc : Nat)
    (_hp : alookup (SVGG.fullPositions cd) conn.parentId = some lp)
    (_hc : alookup (SVGG.fullPositions cd) conn.childId = some lc)
    (ip ic : Nat) (lstp lstc : List String) :
    (SVGG.calculateBoxPosition lp ip lstp).2 = 80 + (lp : Int) * 120 + 35 ∧
    (SVGG.calculateBoxPosition lc ic lstc).2 -
      (SVGG.calculateBoxPosition lp ip lstp).2 =
        ((lc : Int) - (lp : Int)) * 120 ∧
    ((SVGG.calculateBoxPosition lp ip lstp).2 <
      (SVGG.calculateBoxPosition lc ic lstc).2 ↔ lp < lc) := by
  have h35 : Int.fdiv BOX_HEIGHT 2 = 35 := by decide
  refine ⟨?_, ?_, ?_⟩
  · simp only [SVGG.calculateBoxPosition, SVG_HEIGHT_PER_LEVEL, h35]
  · simp only [SVGG.calculateBoxPosition, SVG_HEIGHT_PER_LEVEL, h35]
    ring
  · simp only [SVGG.calculateBoxPosition, SVG_HEIGHT_PER_LEVEL, h35]
    omega

theorem C2_amended_witness :
    (⟨"X", "P", none⟩ : SVGG.Connection) ∈
      SVGG.generateConnections cdInverted (SVGG.fullPositions cdInverted) ∧
    (SVGG.calculateBoxPosition 2 0 ["P"]).2 -
      (SVGG.calculateBoxPosition 1 0 ["X", "C"]).2 =
        (((2 : Nat) : Int) - ((1 : Nat) : Int)) * 120 ∧
    ((SVGG.calculateBoxPosition 1 0 ["X", "C"]).2 <
      (SVGG.calculateBoxPosition 2 0 ["P"]).2 ↔ (1 : Nat) < 2) :=
  ⟨by decide,
   (C2_amended_y_affine_in_level cdInverted ⟨"X", "P", none⟩ (by decide)
      1 2 (by decide) (by decide) 0 0 ["X", "C"] ["P"]).2.1,
   (C2_amended_y_affine_in_level cdInverted ⟨"X", "P", none⟩ (by decide)
      1 2 (by decide) (by decide) 0 0 ["X", "C"] ["P"]).2.2⟩

/-- C3, evaluation at the failing input: calling the style-preparation step
of `SVGGenerator.generate_company_diagram` with the preset category
`"professional"` and a `custom_colors` containing `focus_company_color`
mutates the module-level `COLOR_CATEGORIES` table in place (through the
aliased style dicts), and a subsequent call with no `custom_colors` then
returns a different style map than it would have in a fresh process — the
output depends on which calls preceded it. -/
theorem C3_table_mutation_at_failing_input :
    (alookup ((alookup COLOR_CATEGORIES "professional").getD [])
      "focus_company").map EntityStyle.fill_color = some "#E67E22" ∧
    (alookup ((alookup (SVGG.prepareEntityStyles COLOR_CATEGORIES
        "professional" (some [("focus_company_color", "#123456")])).2
        "professional").getD []) "focus_company").map
        EntityStyle.fill_color = some "#123456" ∧
    (SVGG.prepareEntityStyles COLOR_CATEGORIES "professional"
      (some [("focus_company_color", "#123456")])).2 ≠ COLOR_CATEGORIES ∧
    (SVGG.prepareEntityStyles (SVGG.prepareEntityStyles COLOR_CATEGORIES
        "professional" (some [("focus_company_color", "#123456")])).2
        "professional" none).1 ≠
      (SVGG.prepareEntityStyles COLOR_CATEGORIES "professional" none).1 := by
  refine ⟨rfl, rfl, ?_, ?_⟩ <;> decide

/-- C4: the level-assignment computation terminates on every finite input
entity mapping (the driver's fuel is always sufficient, so the fueled
recursion never returns `none`), and on the two-element cycle `cdCycle` —
where `A`, the first entity in input order, becomes the synthetic root —
both `A` and `B` are assigned a defined integer level. -/
theorem C4_terminates_and_labels_cycles :
    (∀ cd : Companies, (CSG.calculateHierarchyLevels cd).isSome) ∧
    alookup (CSG.fullPositions cdCycle) "A" = some 0 ∧
    alookup (CSG.fullPositions cdCycle) "B" = some 1 :=
  ⟨calculateHierarchyLevels_isSome, rfl, rfl⟩

/-- C5: in any input mapping (with the keys distinct, as they are in a
Python dict), every entity whose `parents` sequence is empty ends up with
level 0 in the final level map: such an entity is one of the discovered
roots, its own traversal writes it at level 0, and no traversal of any
other root can ever reach it because it is nobody's child. -/
theorem C5_empty_parents_get_level_zero (cd : Companies)
    (hn : (keysOf cd).Nodup) (cid : String) (ent : Entity)
    (hmem : (cid, ent) ∈ cd) (hpar : ent.parents = []) :
    alookup (CSG.fullPositions cd) cid = some 0 := by
  have hnc := not_child_of_empty_parents hn hmem hpar
  rw [fullPositions_lookup]
  apply findSome?_all_zp
  · intro r _
    exact isolated_lookup_zp cd cid hnc r
  · refine ⟨cid, ?_, isolated_self_zero cd hmem hnc⟩
    rw [List.mem_reverse]
    exact mem_findRootCompanies hmem hpar

theorem C5_witness :
    (keysOf cdTwoRoots).Nodup ∧
    ("B", ({} : Entity)) ∈ cdTwoRoots ∧
    alookup (CSG.fullPositions cdTwoRoots) "B" = some 0 :=
  ⟨by decide, by decide,
   C5_empty_parents_get_level_zero cdTwoRoots (by decide) "B" {}
     (by decide) rfl⟩

/-- C6: percentage resolution — a numeric annotation resolves to its value
exactly when it is ≥ 0; a string annotation is stripped of surrounding
whitespace and trailing `%` characters and resolves to the parsed float
exactly when it parses and is ≥ 0; anything else (including an absent
annotation) resolves to absent; and the style bucket is `majority_ownership`
for values ≥ 50, `minority_ownership` for values in [25, 50), and `default`
otherwise, including for absent values.  The spec's round-trip examples are
confirmed below the general laws. -/
theorem C6_percentage_resolution_and_buckets :
    (∀ q : ℚ, CSG.sanitizePercentage (some (PercVal.num q)) =
      if 0 ≤ q then some q else none) ∧
    (∀ s : String, CSG.sanitizePercentage (some (PercVal.str s)) =
      match pyFloatOfString (pyStrip (rstripPercent (pyStrip s))) with
      | some p => if 0 ≤ p then some p else none
      | none => none) ∧
    CSG.sanitizePercentage (some PercVal.other) = none ∧
    CSG.sanitizePercentage none = none ∧
    (∀ p : ℚ, CSG.getConnectionStyle (some p) =
      if 50 ≤ p then CONNECTION_STYLES_majority_ownership
      else if 25 ≤ p then CONNECTION_STYLES_minority_ownership
      else CONNECTION_STYLES_default) ∧
    CSG.getConnectionStyle none = CONNECTION_STYLES_default ∧
    CSG.sanitizePercentage (some (PercVal.num 60)) = some 60 ∧
    CSG.sanitizePercentage (some (PercVal.str "60")) = some 60 ∧
    CSG.sanitizePercentage (some (PercVal.str "60%")) = some 60 ∧
    CSG.sanitizePercentage (some (PercVal.str "60.0")) = some 60 ∧
    CSG.sanitizePercentage (some (PercVal.num (-5))) = none ∧
    CSG.sanitizePercentage (some (PercVal.str "abc")) = none ∧
    CSG.getConnectionStyle
      (CSG.sanitizePercentage (some (PercVal.str "60%"))) =
        CONNECTION_STYLES_majority_ownership ∧
    CSG.getConnectionStyle
      (CSG.sanitizePercentage (some (PercVal.str "abc"))) =
        CONNECTION_STYLES_default ∧
    CSG.getConnectionStyle (some 30) = CONNECTION_STYLES_minority_ownership ∧
    CSG.getConnectionStyle (some 10) = CONNECTION_STYLES_default := by
  refine ⟨fun q => rfl, fun s => ?_, rfl, rfl, fun p => rfl, rfl,
    by decide, by decide, by decide, by decide, by decide, by decide,
    by decide, by decide, by decide, by decide⟩
  simp only [CSG.sanitizePercentage]
  by_cases he : pyStrip (rstripPercent (pyStrip s)) = ""
  · rw [if_pos he, he]
    rfl
  · rw [if_neg he]

/-- C7: the diagram entry point never propagates a failure — whatever the
rendering backend does and whatever the input is, the result of
`generate_company_diagram` is the body's SVG when the body succeeds, and
otherwise it is exactly the fixed 400x200 error-placeholder SVG carrying the
error message as centered text. -/
theorem C7_error_boundary (render : CSG.Scene → Except String String)
    (cd : Companies) (customColors : List (String × String))
    (focusCompany : String) :
    (∀ svg, CSG.diagramBody render cd customColors focusCompany =
        Except.ok svg →
      CSG.generateCompanyDiagram render cd customColors focusCompany = svg) ∧
    (∀ e, CSG.diagramBody render cd customColors focusCompany =
        Except.error e →
      CSG.generateCompanyDiagram render cd customColors focusCompany =
        CSG.generateErrorSvg e) ∧
    (∀ e, CSG.generateErrorSvg e =
      "<svg width=\x27400\x27 height=\x27200\x27 xmlns=\x27http://www.w3.org/2000/svg\x27>\n    <rect width=\"400\" height=\"200\" fill=\"#f8f9fa\"/>\n    <text x=\x27200\x27 y=\x27100\x27 text-anchor=\x27middle\x27 font-family=\x27Segoe UI, Arial\x27 font-size=\x2714\x27 fill=\x27#e74c3c\x27>\n        Error generating diagram: "
        ++ e ++ "\n    </text>\n</svg>") := by
  refine ⟨?_, ?_, ?_⟩
  · intro svg h
    simp [CSG.generateCompanyDiagram, h]
  · intro e h
    simp [CSG.generateCompanyDiagram, h]
  · intro e
    rfl

theorem C7_witness :
    CSG.diagramBody (fun _ => Except.error "boom") cdCycle [] "" =
      Except.error "boom" ∧
    CSG.generateCompanyDiagram (fun _ => Except.error "boom") cdCycle [] "" =
      CSG.generateErrorSvg "boom" :=
  ⟨rfl,
   (C7_error_boundary (fun _ => Except.error "boom") cdCycle [] "").2.1
     "boom" rfl⟩

/-- C8: for every level list of length `count` the `SVGGenerator` x-layout
satisfies the spec formula exactly — twice the box center x equals
`(C − (count*W + (count−1)*M)) + 2*i*(W+M) + W` with `W = 180`, `M = 20`,
`C = 900` (the floor division is exact because the dividend is even), and a
six-element row centers to a negative, un-clamped start: its first box
center is x = −50 < 0. -/
theorem C8_row_centering (level index : Nat) (lst : List String) :
    2 * (SVGG.calculateBoxPosition level index lst).1 =
      (SVG_WIDTH - ((lst.length : Int) * BOX_WIDTH +
        ((lst.length : Int) - 1) * BOX_MARGIN)) +
      2 * ((index : Int) * (BOX_WIDTH + BOX_MARGIN)) + BOX_WIDTH ∧
    (SVGG.calculateBoxPosition 0 0 ["a", "b", "c", "d", "e", "f"]).1 =
      -50 ∧
    (SVGG.calculateBoxPosition 0 0 ["a", "b", "c", "d", "e", "f"]).1 < 0 := by
  refine ⟨?_, by decide, by decide⟩
  simp only [SVGG.calculateBoxPosition, SVG_WIDTH, BOX_WIDTH, BOX_MARGIN]
  have h2 : (900 : Int) - ((lst.length : Int) * (180 + 20) - 20) =
      2 * (460 - 100 * (lst.length : Int)) := by ring
  rw [h2, Int.mul_fdiv_cancel_left _ (by norm_num)]
  have h90 : Int.fdiv 180 2 = 90 := by decide
  rw [h90]
  ring

/-- C9: a connector is emitted by `SVGGenerator._generate_connections` over
the computed level map exactly for the declared parent references whose
resolved parent id and child id are both present in that map — a reference
whose parent id is absent from the map yields no connector (and no error,
the emission function is total), while every other reference of the same
entity is still emitted. -/
theorem C9_orphan_references_skipped (cd : Companies)
    (conn : SVGG.Connection) :
    conn ∈ SVGG.generateConnections cd (SVGG.fullPositions cd) ↔
      ∃ ent, (conn.childId, ent) ∈ cd ∧
        (∃ ref ∈ ent.parents,
          SVGG.connectionRef ref =
            some (conn.parentId, conn.percentage)) ∧
        (alookup (SVGG.fullPositions cd) conn.parentId).isSome = true ∧
        (alookup (SVGG.fullPositions cd) conn.childId).isSome = true :=
  mem_generateConnections cd (SVGG.fullPositions cd) conn

/-- C10: the two co-existing copies of the hierarchy pipeline —
`CompanyStructureGenerator` and `SVGGenerator` — are extensionally equal on
root discovery, on the whole level assignment (same returned max level and
same level map, hence the same final positions), and on level grouping. -/
theorem C10_duplicated_pipelines_agree :
    (∀ cd : Companies,
      CSG.findRootCompanies cd = SVGG.findRootCompanies cd) ∧
    (∀ cd : Companies,
      CSG.calculateHierarchyLevels cd = SVGG.calculateHierarchyLevels cd) ∧
    (∀ cd : Companies, CSG.fullPositions cd = SVGG.fullPositions cd) ∧
    (∀ positions : List (String × Nat),
      CSG.groupCompaniesByLevel positions =
        SVGG.groupCompaniesByLevel positions) :=
  ⟨findRootCompanies_eq, calculateHierarchyLevels_eq,
   fun cd => by
     unfold CSG.fullPositions SVGG.fullPositions
     rw [calculateHierarchyLevels_eq],
   groupCompaniesByLevel_eq⟩
